import Mathlib

/-!
Shallow embedding of the IntelliFyle file-event ingestion core.

Sources embedded:
  * `src/database_operations.py` — `DatabaseManager.add_file`, `update_file`,
    `remove_file`, `get_file_type`, `log_event`;
  * `src/monitor.py` — `FileMonitor.on_created/on_modified/on_deleted/on_moved`;
  * `src/appp.py` — `get_file_type`, `get_file_stats`, `get_deleted_files`,
    `cleanup_deleted_files`.

Modelling conventions:
  * The SQLAlchemy store is a `DBState`: a list of `FileRecord` rows (the
    `files` table, queried in insertion order) plus an append-only list of
    `FileEvent` rows (the `file_events` table).
  * The filesystem and the clock are read-only oracles (`FileSystem`):
    `pathExists` models `os.path.exists`, `isFile` models `os.path.isfile`,
    `stat_size`/`stat_mtime`/`stat_ctime` model `os.stat` fields, `now`
    models `datetime.now()`.  Timestamps are abstract `Nat` ticks.
  * `time.sleep` calls have no store effect and are not modelled; the
    exception handlers (`session.rollback`) model the success path only.
  * Python's f-string event keys `f"{kind}_{path}_{time.time()}"` are
    injective in `(kind, path, timestamp)` (the timestamp prints without
    underscores at the end), so they are modelled as an `EventKey` record.
-/

/-- One row of the `files` table (`src/models.py`, class `File`). -/
structure FileRecord where
  file_path : String
  file_name : String
  file_extension : String
  file_size : Nat
  file_type : String
  created_time : Nat
  modified_time : Nat
  last_accessed : Nat
  access_count : Nat
deriving Repr, DecidableEq

/-- One row of the `file_events` table (`src/models.py`, class `FileEvent`). -/
structure FileEvent where
  file_path : String
  event_type : String
  timestamp : Nat
deriving Repr, DecidableEq

/-- The persistent store: the `files` table and the append-only event log. -/
structure DBState where
  files : List FileRecord
  events : List FileEvent
deriving Repr, DecidableEq

/-- Read-only filesystem and clock oracle for one processing step. -/
structure FileSystem where
  pathExists : String → Bool
  isFile : String → Bool
  stat_size : String → Nat
  stat_mtime : String → Nat
  stat_ctime : String → Nat
  now : Nat

/-- Index of the last occurrence of `c` in `l`, if any. -/
def lastIdxOf (c : Char) : List Char → Option Nat
  | [] => none
  | x :: xs =>
    match lastIdxOf c xs with
    | some i => some (i + 1)
    | none => if x = c then some 0 else none

/-- Characters after the last path separator (`os.path.basename`, posix). -/
def basenameChars (l : List Char) : List Char :=
  match lastIdxOf '/' l with
  | some i => l.drop (i + 1)
  | none => l

/-- `os.path.basename` on strings (posix separators). -/
def basenameStr (s : String) : String :=
  String.mk (basenameChars s.data)

/-- The extension part of `os.path.splitext` (posix): the suffix of the
basename starting at its last dot, provided some earlier character of the
basename is not a dot (leading dots of a filename never start an
extension). -/
def splitextExtChars (l : List Char) : List Char :=
  let b := basenameChars l
  match lastIdxOf '.' b with
  | some i => if (b.take i).any (fun c => c ≠ '.') then b.drop i else []
  | none => []

/-- `os.path.splitext(p)[1]` on strings. -/
def splitext_ext (s : String) : String :=
  String.mk (splitextExtChars s.data)

/-- `str.lower()` restricted to ASCII, which covers every table key. -/
def strLower (s : String) : String :=
  String.mk (s.data.map Char.toLower)

/-- First-upper-rest-lower, modelling Python's `str.capitalize()` (ASCII). -/
def capitalizeStr (s : String) : String :=
  match s.data with
  | [] => String.mk []
  | c :: cs => String.mk (c.toUpper :: cs.map Char.toLower)

/-- Association-list lookup modelling `dict.get` on a literal table. -/
def lookupTable (k : String) : List (String × String) → Option String
  | [] => none
  | (a, b) :: rest => if k = a then some b else lookupTable k rest

/-- Replace the first element satisfying `p` by its image under `g`,
modelling SQLAlchemy's in-place mutation of `query(...).first()`. -/
def updateFirst (p : α → Bool) (g : α → α) : List α → List α
  | [] => []
  | x :: xs => if p x then g x :: xs else x :: updateFirst p g xs

namespace DatabaseManager

/-- The literal extension table of `DatabaseManager.get_file_type`
(`src/database_operations.py` lines 162-174). -/
def type_map : List (String × String) :=
  [(".txt", "document"), (".doc", "document"), (".docx", "document"),
   (".pdf", "document"), (".pptx", "document"), (".xlsx", "document"),
   (".jpg", "image"), (".jpeg", "image"), (".png", "image"),
   (".gif", "image"), (".bmp", "image"), (".svg", "image"), (".webp", "image"),
   (".mp4", "video"), (".avi", "video"), (".mov", "video"),
   (".mkv", "video"), (".wmv", "video"), (".flv", "video"),
   (".mp3", "audio"), (".wav", "audio"), (".m4a", "audio"),
   (".flac", "audio"), (".aac", "audio"),
   (".zip", "archive"), (".rar", "archive"), (".7z", "archive"),
   (".py", "other"), (".java", "other"), (".js", "other"),
   (".html", "other"), (".css", "other"), (".cpp", "other"), (".c", "other")]

/-- `DatabaseManager.get_file_type`: extension of the path, lowercased,
looked up in `type_map`, defaulting to `"other"`. -/
def get_file_type (file_path : String) : String :=
  let extension := strLower (splitext_ext file_path)
  (lookupTable extension type_map).getD ("other")

/-- `DatabaseManager.log_event`: append a row to the `file_events` table. -/
def log_event (fs : FileSystem) (st : DBState) (file_path event_type : String) :
    DBState :=
  { st with events := st.events ++ [⟨file_path, event_type, fs.now⟩] }

/-- `session.query(File).filter(File.file_path == file_path).first()`. -/
def find_record (st : DBState) (file_path : String) : Option FileRecord :=
  st.files.find? (fun f => f.file_path == file_path)

/-- `DatabaseManager.add_file` (success path; `callback` and ML hooks have
no store effect).  If the path exists and is a file: an existing row gets
its `modified_time`, `last_accessed` and `file_size` refreshed and an
`"updated"` event is logged; otherwise a fresh row with `access_count = 1`
is inserted and a `"created"` event is logged.  Otherwise no change. -/
def add_file (fs : FileSystem) (st : DBState) (file_path : String) : DBState :=
  if fs.pathExists file_path && fs.isFile file_path then
    match find_record st file_path with
    | some _ =>
      let st' := { st with
        files := updateFirst (fun f => f.file_path == file_path)
          (fun f => { f with
            modified_time := fs.stat_mtime file_path,
            last_accessed := fs.now,
            file_size := fs.stat_size file_path }) st.files }
      log_event fs st' file_path ("updated")
    | none =>
      let file_record : FileRecord :=
        { file_path := file_path,
          file_name := basenameStr file_path,
          file_extension := strLower (splitext_ext file_path),
          file_size := fs.stat_size file_path,
          file_type := get_file_type file_path,
          created_time := fs.stat_ctime file_path,
          modified_time := fs.stat_mtime file_path,
          last_accessed := fs.now,
          access_count := 1 }
      log_event fs { st with files := st.files ++ [file_record] }
        file_path ("created")
  else st

/-- `DatabaseManager.update_file` (success path).  If the path exists and a
row is found: refresh `modified_time`, `file_size`, `last_accessed`,
increment `access_count`, log a `"modified"` event.  If the path exists but
no row is found, fall through to `add_file`.  If the path does not exist,
return with no change. -/
def update_file (fs : FileSystem) (st : DBState) (file_path : String) : DBState :=
  if fs.pathExists file_path then
    match find_record st file_path with
    | some _ =>
      let st' := { st with
        files := updateFirst (fun f => f.file_path == file_path)
          (fun f => { f with
            modified_time := fs.stat_mtime file_path,
            file_size := fs.stat_size file_path,
            last_accessed := fs.now,
            access_count := f.access_count + 1 }) st.files }
      log_event fs st' file_path ("modified")
    | none => add_file fs st file_path
  else st

/-- `DatabaseManager.remove_file` (success path).  If a row is found it is
physically deleted (`session.delete`) and a `"deleted"` event is logged;
otherwise only a warning is logged and nothing changes. -/
def remove_file (fs : FileSystem) (st : DBState) (file_path : String) : DBState :=
  match find_record st file_path with
  | some _ =>
    log_event fs
      { st with files := st.files.eraseP (fun f => f.file_path == file_path) }
      file_path ("deleted")
  | none => st

end DatabaseManager

/-- Dedup key of `FileMonitor`: the f-string `f"{kind}_{path}_{t}"` (for
moves `f"moved_{src}_{dest}_{t}"`), modelled as its components. -/
structure EventKey where
  kind : String
  path : String
  dest : Option String
  t : Nat
deriving Repr, DecidableEq

/-- State of a `FileMonitor` handler: the `processed_events` set and the
database it writes through. -/
structure MonitorState where
  processed_events : List EventKey
  db : DBState
deriving Repr, DecidableEq

namespace FileMonitor

/-- `FileMonitor.on_created` (non-directory case; `t` is the `time.time()`
stamp baked into the key).  The key is recorded, `add_file` runs, and the
`processed_events` set is cleared once it exceeds 1000 entries. -/
def on_created (fs : FileSystem) (m : MonitorState) (path : String) (t : Nat) :
    MonitorState :=
  let event_key : EventKey := ⟨"created", path, none, t⟩
  if event_key ∈ m.processed_events then m
  else
    let m' : MonitorState :=
      ⟨event_key :: m.processed_events, DatabaseManager.add_file fs m.db path⟩
    if m'.processed_events.length > 1000 then ⟨[], m'.db⟩ else m'

/-- `FileMonitor.on_modified` (non-directory case). -/
def on_modified (fs : FileSystem) (m : MonitorState) (path : String) (t : Nat) :
    MonitorState :=
  let event_key : EventKey := ⟨"modified", path, none, t⟩
  if event_key ∈ m.processed_events then m
  else
    let m' : MonitorState :=
      ⟨event_key :: m.processed_events, DatabaseManager.update_file fs m.db path⟩
    if m'.processed_events.length > 1000 then ⟨[], m'.db⟩ else m'

/-- `FileMonitor.on_deleted` (non-directory case). -/
def on_deleted (fs : FileSystem) (m : MonitorState) (path : String) (t : Nat) :
    MonitorState :=
  let event_key : EventKey := ⟨"deleted", path, none, t⟩
  if event_key ∈ m.processed_events then m
  else
    let m' : MonitorState :=
      ⟨event_key :: m.processed_events, DatabaseManager.remove_file fs m.db path⟩
    if m'.processed_events.length > 1000 then ⟨[], m'.db⟩ else m'

/-- `FileMonitor.on_moved` (non-directory case): `remove_file` on the source
path, a `time.sleep(0.5)`, then `add_file` on the destination path — two
separately committed store transactions. -/
def on_moved (fs : FileSystem) (m : MonitorState) (src_path dest_path : String)
    (t : Nat) : MonitorState :=
  let event_key : EventKey := ⟨"moved", src_path, some dest_path, t⟩
  if event_key ∈ m.processed_events then m
  else
    let db1 := DatabaseManager.remove_file fs m.db src_path
    let db2 := DatabaseManager.add_file fs db1 dest_path
    let m' : MonitorState := ⟨event_key :: m.processed_events, db2⟩
    if m'.processed_events.length > 1000 then ⟨[], m'.db⟩ else m'

end FileMonitor

/-- A burst of Modified notifications: `on_modified` delivered once per
arrival timestamp in `ts`, in order. -/
def processModified (fs : FileSystem) (m : MonitorState) (path : String)
    (ts : List Nat) : MonitorState :=
  ts.foldl (fun acc t => FileMonitor.on_modified fs acc path t) m

namespace App

/-- `get_file_type` of `src/appp.py` (lines 223-238): membership chain over
literal extension lists, defaulting to `"other"`. -/
def get_file_type (filename : String) : String :=
  let extension := strLower (splitext_ext filename)
  if extension ∈ [".txt", ".doc", ".docx", ".pdf", ".pptx", ".xlsx"] then
    "document"
  else if extension ∈ [".jpg", ".jpeg", ".png", ".gif", ".bmp", ".svg", ".webp"] then
    "image"
  else if extension ∈ [".mp4", ".avi", ".mov", ".mkv", ".wmv"] then
    "video"
  else if extension ∈ [".mp3", ".wav", ".m4a", ".flac"] then
    "audio"
  else if extension ∈ [".zip", ".rar", ".7z"] then
    "archive"
  else
    "other"

/-- Result record of `get_file_stats`.  The source reports
`total_size_bytes / 1024**3` rounded to two decimals as `total_size_gb`
(a display-only float conversion of the byte total computed first, not
modelled); `file_size` is modelled as always non-null. -/
structure FileStats where
  total_files : Nat
  total_size_bytes : Nat
  type_counts : List (String × Nat)
deriving Repr, DecidableEq

/-- Increment the count stored under `k`, inserting it at the end if new —
models `type_counts[name] = type_counts.get(name, 0) + 1`. -/
def bumpCount (k : String) : List (String × Nat) → List (String × Nat)
  | [] => [(k, 1)]
  | (a, n) :: rest =>
    if a = k then (a, n + 1) :: rest else (a, n) :: bumpCount k rest

/-- `get_file_stats` of `src/appp.py` (success path): row count, byte total
and per-capitalized-type counts over every row of the `files` table (rows
with an empty `file_type` are skipped in the counts). -/
def get_file_stats (st : DBState) : FileStats :=
  { total_files := st.files.length,
    total_size_bytes := (st.files.map (fun f => f.file_size)).sum,
    type_counts := st.files.foldl
      (fun acc f =>
        if f.file_type ≠ "" then bumpCount (capitalizeStr f.file_type) acc
        else acc) [] }

/-- `get_deleted_files` of `src/appp.py`: the rows whose path no longer
exists on the filesystem. -/
def get_deleted_files (fs : FileSystem) (st : DBState) : List FileRecord :=
  st.files.filter (fun f => !(fs.pathExists f.file_path))

/-- `cleanup_deleted_files` of `src/appp.py` (success path): delete every
row whose path does not exist, commit, and report how many were deleted. -/
def cleanup_deleted_files (fs : FileSystem) (st : DBState) : DBState × Nat :=
  ({ files := st.files.filter (fun f => fs.pathExists f.file_path),
     events := st.events },
   (st.files.filter (fun f => !(fs.pathExists f.file_path))).length)

end App

/-- Modelled from the spec: `classify(extension) -> Category` as §4.2 words
it — the input is an extension string, matched case-insensitively with the
leading dot optional, unknown or missing extension mapping to `Other`.
This definition exists only to compare the spec's wording with the source's
`get_file_type`, which instead extracts a dotted extension from a path. -/
def classifySpec (extension : String) : String :=
  let e := strLower extension
  let e' := match e.data with
    | '.' :: rest => String.mk rest
    | _ => e
  (lookupTable e'
    [("txt", "document"), ("doc", "document"), ("docx", "document"),
     ("pdf", "document"), ("pptx", "document"), ("xlsx", "document"),
     ("jpg", "image"), ("jpeg", "image"), ("png", "image"),
     ("gif", "image"), ("bmp", "image"), ("svg", "image"), ("webp", "image"),
     ("mp4", "video"), ("avi", "video"), ("mov", "video"),
     ("mkv", "video"), ("wmv", "video"), ("flv", "video"),
     ("mp3", "audio"), ("wav", "audio"), ("m4a", "audio"),
     ("flac", "audio"), ("aac", "audio"),
     ("zip", "archive"), ("rar", "archive"), ("7z", "archive"),
     ("py", "other"), ("java", "other"), ("js", "other"),
     ("html", "other"), ("css", "other"), ("cpp", "other"), ("c", "other")]).getD
    ("other")

/-- Does the store hold a row for this path? -/
def hasRecord (st : DBState) (p : String) : Bool :=
  st.files.any (fun f => f.file_path == p)

/-- The category strings the classifiers can return. -/
def categories : List String :=
  ["document", "image", "video", "audio", "archive", "other"]

/-- Filesystem for the move scenarios: only the destination `/w/b` exists. -/
def fsC1 : FileSystem :=
  ⟨fun p => p == "/w/b", fun p => p == "/w/b",
   fun _ => 10, fun _ => 100, fun _ => 90, 5⟩

/-- A tracked source record at `/w/a`. -/
def recC1 : FileRecord :=
  ⟨"/w/a", "a", "", 3, "other", 1, 2, 3, 1⟩

/-- Store holding only the source record. -/
def stC1 : DBState := ⟨[recC1], []⟩

/-- The store state between the two commits of `on_moved`. -/
def midC1 : DBState := DatabaseManager.remove_file fsC1 stC1 "/w/a"

/-- Filesystem where no path exists (post-deletion view). -/
def fsGone : FileSystem :=
  ⟨fun _ => false, fun _ => false, fun _ => 0, fun _ => 0, fun _ => 0, 9⟩

/-- A tracked record at `/t/x.txt` with its last known metadata. -/
def recC2 : FileRecord :=
  ⟨"/t/x.txt", "x.txt", ".txt", 4, "document", 1, 2, 3, 2⟩

/-- Store holding only `recC2`. -/
def stC2 : DBState := ⟨[recC2], []⟩

/-- Filesystem for the modify scenarios: only `/m/f.txt` exists. -/
def fsC3 : FileSystem :=
  ⟨fun p => p == "/m/f.txt", fun p => p == "/m/f.txt",
   fun _ => 8, fun _ => 50, fun _ => 40, 2⟩

/-- A tracked record at `/m/f.txt`. -/
def recC3 : FileRecord :=
  ⟨"/m/f.txt", "f.txt", ".txt", 8, "document", 1, 1, 1, 1⟩

/-- Monitor state tracking `recC3` with an empty dedup set. -/
def mC3 : MonitorState := ⟨[], ⟨[recC3], []⟩⟩

/-- A tracked record at `/g/x.txt` (file later vanishes). -/
def recC6 : FileRecord :=
  ⟨"/g/x.txt", "x.txt", ".txt", 5, "document", 1, 2, 3, 3⟩

/-- Store holding only `recC6`. -/
def stC6 : DBState := ⟨[recC6], []⟩

/-- A record whose filesystem path is absent (tombstoned in trash terms). -/
def recC7 : FileRecord :=
  ⟨"/gone.pdf", "gone.pdf", ".pdf", 100, "document", 1, 2, 3, 1⟩

/-- Store holding only the tombstoned `recC7`. -/
def stC7 : DBState := ⟨[recC7], []⟩

/- ----------------------------------------------------------------- -/
/- Helper lemmas about the list combinators used by the embedding.   -/
/- ----------------------------------------------------------------- -/

theorem lookupTable_mem_snd (k v : String) (l : List (String × String))
    (h : lookupTable k l = some v) : v ∈ l.map Prod.snd := by
  induction l with
  | nil => simp [lookupTable] at h
  | cons x xs ih =>
    obtain ⟨a, b⟩ := x
    rw [lookupTable] at h
    by_cases hk : k = a
    · rw [if_pos hk] at h
      cases h
      simp
    · rw [if_neg hk] at h
      simpa using Or.inr (ih h)

theorem tail_eq_nil_of_length_le_one {α : Type} (l : List α)
    (h : l.length ≤ 1) : l.tail = [] := by
  cases l with
  | nil => rfl
  | cons x xs =>
    cases xs with
    | nil => rfl
    | cons y ys => simp at h

theorem filter_eraseP {α : Type} (p : α → Bool) (l : List α) :
    (l.eraseP p).filter p = (l.filter p).tail := by
  induction l with
  | nil => rfl
  | cons x xs ih =>
    cases hx : p x with
    | true => simp [List.eraseP_cons, hx, List.filter_cons]
    | false => simp [List.eraseP_cons, hx, List.filter_cons, ih]

theorem any_eq_false_of_filter_eq_nil {α : Type} (p : α → Bool) (l : List α)
    (h : l.filter p = []) : l.any p = false := by
  induction l with
  | nil => rfl
  | cons x xs ih =>
    rw [List.filter_cons] at h
    cases hx : p x with
    | true => simp [hx] at h
    | false =>
      simp only [hx, if_neg] at h
      simp [List.any_cons, hx, ih (by simpa [hx] using h)]

theorem updateFirst_any {α : Type} (p q : α → Bool) (g : α → α)
    (hg : ∀ x, p (g x) = p x) (l : List α) :
    (updateFirst q g l).any p = l.any p := by
  induction l with
  | nil => rfl
  | cons x xs ih =>
    rw [updateFirst]
    cases hx : q x with
    | true => simp [List.any_cons, hg]
    | false => simp [List.any_cons, ih]

theorem updateFirst_find? {α : Type} (q : α → Bool) (g : α → α)
    (hg : ∀ x, q (g x) = q x) (l : List α) :
    (updateFirst q g l).find? q = (l.find? q).map g := by
  induction l with
  | nil => rfl
  | cons x xs ih =>
    rw [updateFirst]
    cases hx : q x with
    | true =>
      rw [if_pos rfl]
      rw [List.find?_cons_of_pos _ hx, List.find?_cons_of_pos _ (by rw [hg, hx])]
      rfl
    | false =>
      rw [if_neg (by simp [hx])]
      rw [List.find?_cons_of_neg _ (by simp [hx]),
        List.find?_cons_of_neg _ (by simp [hx]), ih]

theorem updateFirst_filter {α : Type} (q : α → Bool) (g : α → α)
    (hg : ∀ x, q (g x) = q x) (l : List α) (r : α)
    (h : l.filter q = [r]) :
    (updateFirst q g l).filter q = [g r] := by
  induction l with
  | nil => simp at h
  | cons x xs ih =>
    rw [updateFirst]
    cases hx : q x with
    | true =>
      rw [List.filter_cons_of_pos hx] at h
      obtain ⟨hxr, hxs⟩ := List.cons_eq_cons.mp h
      rw [if_pos rfl, List.filter_cons_of_pos (by rw [hg, hx]), hxs, hxr]
    | false =>
      rw [List.filter_cons_of_neg (by simp [hx])] at h
      rw [if_neg (by simp), List.filter_cons_of_neg (by simp [hx]), ih h]

theorem find?_eq_head?_filter {α : Type} (q : α → Bool) (l : List α) :
    l.find? q = (l.filter q).head? := by
  induction l with
  | nil => rfl
  | cons x xs ih =>
    cases hx : q x with
    | true =>
      rw [List.find?_cons_of_pos _ hx, List.filter_cons_of_pos hx]
      rfl
    | false =>
      rw [List.find?_cons_of_neg _ (by simp [hx]),
        List.filter_cons_of_neg (by simp [hx]), ih]

theorem filter_filter_self {α : Type} (p : α → Bool) (l : List α) :
    (l.filter p).filter p = l.filter p := by
  induction l with
  | nil => rfl
  | cons x xs ih =>
    cases hx : p x with
    | true => simp [List.filter_cons, hx, ih]
    | false => simp [List.filter_cons, hx, ih]

theorem filter_not_filter_self {α : Type} (p : α → Bool) (l : List α) :
    (l.filter p).filter (fun a => !(p a)) = [] := by
  induction l with
  | nil => rfl
  | cons x xs ih =>
    cases hx : p x with
    | true => simp [List.filter_cons, hx, ih]
    | false => simp [List.filter_cons, hx, ih]

theorem length_filter_add_length_filter_not {α : Type} (p : α → Bool)
    (l : List α) :
    (l.filter p).length + (l.filter (fun a => !(p a))).length = l.length := by
  induction l with
  | nil => rfl
  | cons x xs ih =>
    cases hx : p x with
    | true => simp [List.filter_cons, hx]; omega
    | false => simp [List.filter_cons, hx]; omega

/- ----------------------------------------------------------------- -/
/- Lemmas about the embedded store operations.                        -/
/- ----------------------------------------------------------------- -/

theorem find_record_none_hasRecord (st : DBState) (p : String)
    (h : DatabaseManager.find_record st p = none) : hasRecord st p = false := by
  unfold DatabaseManager.find_record at h
  rw [List.find?_eq_none] at h
  unfold hasRecord
  cases hq : st.files.any (fun f => f.file_path == p) with
  | false => rfl
  | true =>
    rw [List.any_eq_true] at hq
    obtain ⟨f, hf, hfp⟩ := hq
    exact absurd hfp (h f hf)

theorem remove_file_hasRecord_self (fs : FileSystem) (st : DBState) (p : String)
    (huniq : (st.files.filter (fun f => f.file_path == p)).length ≤ 1) :
    hasRecord (DatabaseManager.remove_file fs st p) p = false := by
  unfold DatabaseManager.remove_file
  cases hfind : DatabaseManager.find_record st p with
  | none => exact find_record_none_hasRecord st p hfind
  | some r =>
    unfold DatabaseManager.log_event hasRecord
    apply any_eq_false_of_filter_eq_nil
    rw [filter_eraseP]
    exact tail_eq_nil_of_length_le_one _ huniq

theorem remove_file_files (fs : FileSystem) (st : DBState) (p : String)
    (r : FileRecord) (hfind : DatabaseManager.find_record st p = some r) :
    (DatabaseManager.remove_file fs st p).files
        = st.files.eraseP (fun f => f.file_path == p) ∧
    (DatabaseManager.remove_file fs st p).events
        = st.events ++ [⟨p, "deleted", fs.now⟩] := by
  unfold DatabaseManager.remove_file
  rw [hfind]
  exact ⟨rfl, rfl⟩

theorem add_file_hasRecord_self (fs : FileSystem) (st : DBState) (p : String)
    (hex : fs.pathExists p = true) (hf : fs.isFile p = true) :
    hasRecord (DatabaseManager.add_file fs st p) p = true := by
  simp only [DatabaseManager.add_file, hex, hf, Bool.and_self, if_true]
  cases hfind : DatabaseManager.find_record st p with
  | some r =>
    simp only [hfind, DatabaseManager.log_event, hasRecord]
    rw [updateFirst_any _ _ _ (by intro x; rfl)]
    rw [List.any_eq_true]
    have hfind' : st.files.find? (fun f => f.file_path == p) = some r := hfind
    have hpr := List.find?_some hfind'
    exact ⟨r, List.mem_of_find?_eq_some hfind', hpr⟩
  | none =>
    simp only [hfind, DatabaseManager.log_event, hasRecord]
    rw [List.any_append]
    simp

theorem add_file_hasRecord_other (fs : FileSystem) (st : DBState) (p s : String)
    (hne : s ≠ p) :
    hasRecord (DatabaseManager.add_file fs st p) s = hasRecord st s := by
  unfold DatabaseManager.add_file
  cases hc : (fs.pathExists p && fs.isFile p) with
  | false => rfl
  | true =>
    simp only [if_true]
    cases hfind : DatabaseManager.find_record st p with
    | some r =>
      simp only [hfind, DatabaseManager.log_event, hasRecord]
      rw [updateFirst_any _ _ _ (by intro x; rfl)]
    | none =>
      simp only [hfind, DatabaseManager.log_event, hasRecord]
      rw [List.any_append]
      simp only [List.any_cons, List.any_nil, Bool.or_false]
      have : (p == s) = false := by
        simp only [beq_eq_false_iff_ne]
        exact fun h => hne h.symm
      rw [this, Bool.or_false]

theorem update_file_tracked (fs : FileSystem) (st : DBState) (p : String)
    (r : FileRecord) (hex : fs.pathExists p = true)
    (hfind : DatabaseManager.find_record st p = some r) :
    (DatabaseManager.update_file fs st p).events
        = st.events ++ [⟨p, "modified", fs.now⟩] ∧
    ∃ r', DatabaseManager.find_record (DatabaseManager.update_file fs st p) p
        = some r' := by
  have hfind' : st.files.find? (fun f => f.file_path == p) = some r := hfind
  simp only [DatabaseManager.update_file, hex, if_true,
    DatabaseManager.find_record, hfind', DatabaseManager.log_event]
  refine ⟨trivial, ?_⟩
  rw [updateFirst_find? _ _ (by intro x; rfl)]
  rw [hfind']
  exact ⟨_, rfl⟩

/- ----------------------------------------------------------------- -/
/- Claim theorems.                                                    -/
/- ----------------------------------------------------------------- -/

/-- C2 counterexample: with one Live record for `/t/x.txt`, processing a
Deleted event (`remove_file`) leaves the `files` table empty — the record
is physically removed, not retained as a tombstone — while a `"deleted"`
event is appended to the log.  This refutes the claim that the record is
retained with its metadata intact. -/
theorem C2_counterexample :
    hasRecord stC2 "/t/x.txt" = true ∧
    (DatabaseManager.remove_file fsGone stC2 "/t/x.txt").files = [] ∧
    (DatabaseManager.remove_file fsGone stC2 "/t/x.txt").events
      = [⟨"/t/x.txt", "deleted", 9⟩] := by decide

/-- C2 (amended): for every path with exactly one index record, processing
a Deleted event physically removes that record from the store (no row for
the path remains) and appends a `"deleted"` event to the event log. -/
theorem C2_deleted_removes_record (fs : FileSystem) (st : DBState) (p : String)
    (r : FileRecord) (h : st.files.filter (fun f => f.file_path == p) = [r]) :
    hasRecord (DatabaseManager.remove_file fs st p) p = false ∧
    (DatabaseManager.remove_file fs st p).events
      = st.events ++ [⟨p, "deleted", fs.now⟩] := by
  have hlen : (st.files.filter (fun f => f.file_path == p)).length ≤ 1 := by
    simp [h]
  have hfind : DatabaseManager.find_record st p = some r := by
    unfold DatabaseManager.find_record
    rw [find?_eq_head?_filter, h]
    rfl
  exact ⟨remove_file_hasRecord_self fs st p hlen,
    (remove_file_files fs st p r hfind).2⟩

/-- C2 witness: `C2_deleted_removes_record` applied to the concrete store
holding one record for `/t/x.txt`. -/
theorem C2_witness :
    hasRecord (DatabaseManager.remove_file fsGone stC2 "/t/x.txt") "/t/x.txt"
      = false ∧
    (DatabaseManager.remove_file fsGone stC2 "/t/x.txt").events
      = stC2.events ++ [⟨"/t/x.txt", "deleted", fsGone.now⟩] :=
  C2_deleted_removes_record fsGone stC2 "/t/x.txt" recC2 (by decide)

/-- C6 counterexample: with a Live record for `/g/x.txt` whose file is
gone, processing a Modified event (`update_file`) is a complete no-op —
the record is not transitioned, no `"deleted"` event is appended — whereas
the code's Deleted branch (`remove_file`) would have removed the row and
logged `"deleted"`.  This refutes the claim that the Deleted branch is
taken. -/
theorem C6_counterexample :
    DatabaseManager.update_file fsGone stC6 "/g/x.txt" = stC6 ∧
    hasRecord stC6 "/g/x.txt" = true ∧
    (DatabaseManager.update_file fsGone stC6 "/g/x.txt").events = [] ∧
    (DatabaseManager.remove_file fsGone stC6 "/g/x.txt").files = [] ∧
    (DatabaseManager.remove_file fsGone stC6 "/g/x.txt").events
      = [⟨"/g/x.txt", "deleted", 9⟩] := by decide

/-- C6 (amended): processing a Modified event for a path that no longer
exists on the filesystem is a no-op: the existence re-check guards the
whole handler, so the modification is not applied, but no Deleted
transition runs either — the store is returned unchanged. -/
theorem C6_modified_missing_noop (fs : FileSystem) (st : DBState) (p : String)
    (h : fs.pathExists p = false) :
    DatabaseManager.update_file fs st p = st := by
  simp [DatabaseManager.update_file, h]

/-- C6 witness: `C6_modified_missing_noop` at the concrete vanished path. -/
theorem C6_witness :
    DatabaseManager.update_file fsGone stC6 "/g/x.txt" = stC6 :=
  C6_modified_missing_noop fsGone stC6 "/g/x.txt" (by decide)

/-- C7 counterexample: a store holding exactly one record whose filesystem
path is absent (a tombstoned record).  `get_file_stats` reports
`total_files = 1` although there are zero Live records — tombstoned
records are counted, refuting the claim that stats cover Live records
only. -/
theorem C7_counterexample :
    (App.get_file_stats stC7).total_files = 1 ∧
    (stC7.files.filter (fun f => fsGone.pathExists f.file_path)).length = 0 ∧
    (App.get_deleted_files fsGone stC7).length = 1 ∧ (1 : Nat) ≠ 0 := by decide

/-- C7 (amended): `get_file_stats` computes its totals over every index
record regardless of filesystem existence: the reported file count is the
number of Live records plus the number of tombstoned (path-absent)
records, and the byte total sums `file_size` over all records. -/
theorem C7_stats_over_all_records (fs : FileSystem) (st : DBState) :
    (App.get_file_stats st).total_files
      = (st.files.filter (fun f => fs.pathExists f.file_path)).length
        + (App.get_deleted_files fs st).length ∧
    (App.get_file_stats st).total_size_bytes
      = (st.files.map (fun f => f.file_size)).sum := by
  refine ⟨?_, rfl⟩
  unfold App.get_file_stats App.get_deleted_files
  exact (length_filter_add_length_filter_not
    (fun f => fs.pathExists f.file_path) st.files).symm

/-- C8: `cleanup_deleted_files` removes exactly the records whose path is
absent, returns their count, leaves the event log untouched, and is
idempotent — a second run removes nothing, returns 0 and leaves the store
unchanged. -/
theorem C8_cleanup_idempotent (fs : FileSystem) (st : DBState) :
    (App.cleanup_deleted_files fs st).2 = (App.get_deleted_files fs st).length ∧
    (App.cleanup_deleted_files fs st).1.files
      = st.files.filter (fun f => fs.pathExists f.file_path) ∧
    (App.cleanup_deleted_files fs st).1.events = st.events ∧
    App.cleanup_deleted_files fs (App.cleanup_deleted_files fs st).1
      = ((App.cleanup_deleted_files fs st).1, 0) := by
  refine ⟨rfl, rfl, rfl, ?_⟩
  simp only [App.cleanup_deleted_files]
  rw [filter_filter_self, filter_not_filter_self]
  rfl

/-- C9: processing a Deleted event for a path with no index record leaves
the store — both the files table and the event log — completely
unchanged (the miss only logs a warning). -/
theorem C9_remove_missing_noop (fs : FileSystem) (st : DBState) (p : String)
    (h : DatabaseManager.find_record st p = none) :
    DatabaseManager.remove_file fs st p = st := by
  unfold DatabaseManager.remove_file
  rw [h]

/-- C9 witness: `C9_remove_missing_noop` at a path absent from the store. -/
theorem C9_witness :
    DatabaseManager.remove_file fsGone stC2 "/nowhere" = stC2 :=
  C9_remove_missing_noop fsGone stC2 "/nowhere" (by decide)

/-- C4: applying `add_file` to a path that exists on disk and already has
exactly one index record leaves exactly one record for that path, and the
duplicate application does not change its `access_count` (the existing-row
branch refreshes size and timestamps only). -/
theorem C4_add_file_idempotent (fs : FileSystem) (st : DBState) (p : String)
    (r : FileRecord) (hex : fs.pathExists p = true) (hf : fs.isFile p = true)
    (h : st.files.filter (fun f => f.file_path == p) = [r]) :
    ∃ f', (DatabaseManager.add_file fs st p).files.filter
        (fun f => f.file_path == p) = [f'] ∧
      f'.access_count = r.access_count := by
  have hfind : DatabaseManager.find_record st p = some r := by
    unfold DatabaseManager.find_record
    rw [find?_eq_head?_filter, h]
    rfl
  have hfind' : st.files.find? (fun f => f.file_path == p) = some r := hfind
  simp only [DatabaseManager.add_file, hex, hf, Bool.and_self, if_true,
    DatabaseManager.find_record, hfind', DatabaseManager.log_event]
  refine ⟨_, updateFirst_filter _ _ (by intro x; rfl) _ r h, rfl⟩

/-- C4 witness: `C4_add_file_idempotent` on the concrete tracked file
`/m/f.txt`. -/
theorem C4_witness :
    ∃ f', (DatabaseManager.add_file fsC3 mC3.db "/m/f.txt").files.filter
        (fun f => f.file_path == "/m/f.txt") = [f'] ∧
      f'.access_count = recC3.access_count :=
  C4_add_file_idempotent fsC3 mC3.db "/m/f.txt" recC3 (by decide) (by decide)
    (by decide)

/-- C10: processing a Modified event for a path that exists on disk but
has no index record falls through to the Created ingestion path: exactly
one fresh record is appended, carrying `access_count = 1`, and a
`"created"` event is appended to the log. -/
theorem C10_modified_untracked_creates (fs : FileSystem) (st : DBState)
    (p : String) (hex : fs.pathExists p = true) (hf : fs.isFile p = true)
    (h : DatabaseManager.find_record st p = none) :
    ∃ f', (DatabaseManager.update_file fs st p).files = st.files ++ [f'] ∧
      f'.file_path = p ∧ f'.access_count = 1 ∧
      (DatabaseManager.update_file fs st p).events
        = st.events ++ [⟨p, "created", fs.now⟩] := by
  have h' : st.files.find? (fun f => f.file_path == p) = none := h
  simp only [DatabaseManager.update_file, hex, if_true,
    DatabaseManager.find_record, h', DatabaseManager.add_file, hf,
    Bool.and_self, DatabaseManager.log_event]
  exact ⟨_, rfl, rfl, rfl, trivial⟩

/-- C10 witness: `C10_modified_untracked_creates` for the untracked but
existing path `/w/b`. -/
theorem C10_witness :
    ∃ f', (DatabaseManager.update_file fsC1 stC1 "/w/b").files
        = stC1.files ++ [f'] ∧
      f'.file_path = "/w/b" ∧ f'.access_count = 1 ∧
      (DatabaseManager.update_file fsC1 stC1 "/w/b").events
        = stC1.events ++ [⟨"/w/b", "created", fsC1.now⟩] :=
  C10_modified_untracked_creates fsC1 stC1 "/w/b" (by decide) (by decide)
    (by decide)

/-- C5 counterexample: the classifier takes a path, not a bare extension,
and the leading dot is not optional — the bare extension `"txt"` and the
dotted `".txt"` (a dotfile as a path) both classify as `"other"`, while
the spec's `classify` maps both to `"document"`; the same extension inside
a real filename does map to `"document"`. -/
theorem C5_counterexample :
    DatabaseManager.get_file_type (".txt") = "other" ∧
    DatabaseManager.get_file_type ("txt") = "other" ∧
    App.get_file_type (".txt") = "other" ∧
    classifySpec (".txt") = "document" ∧
    classifySpec ("txt") = "document" ∧
    DatabaseManager.get_file_type ("a.txt") = "document" := by decide

/-- C5 (amended): both classifiers are total deterministic functions on
path strings — every input (empty, no-extension, uppercase, unknown)
yields one of the six categories; a path with no extension maps to
`"other"`; and the result depends only on the lowercased extension of the
path (case-insensitive table match).  The extension is extracted from the
path with its dot; a bare extension with or without a leading dot is not
matched against the table. -/
theorem C5_classifier_total :
    (∀ s : String, DatabaseManager.get_file_type s ∈ categories) ∧
    (∀ s : String, App.get_file_type s ∈ categories) ∧
    (∀ s : String, splitext_ext s = "" →
      DatabaseManager.get_file_type s = "other") ∧
    (∀ p q : String, strLower (splitext_ext p) = strLower (splitext_ext q) →
      DatabaseManager.get_file_type p = DatabaseManager.get_file_type q) := by
  refine ⟨?_, ?_, ?_, ?_⟩
  · intro s
    simp only [DatabaseManager.get_file_type]
    cases hl : lookupTable (strLower (splitext_ext s)) DatabaseManager.type_map with
    | none => decide
    | some v =>
      have hv := lookupTable_mem_snd _ _ _ hl
      have hsub : ∀ x ∈ DatabaseManager.type_map.map Prod.snd, x ∈ categories := by
        decide
      simpa using hsub v hv
  · intro s
    simp only [App.get_file_type]
    repeat' split
    all_goals decide
  · intro s h
    simp only [DatabaseManager.get_file_type, h]
    decide
  · intro p q h
    simp only [DatabaseManager.get_file_type, h]

/-- C5 witness: the no-extension and case-insensitivity parts of
`C5_classifier_total` at concrete inputs. -/
theorem C5_witness :
    DatabaseManager.get_file_type ("noext") = "other" ∧
    DatabaseManager.get_file_type ("A.TXT")
      = DatabaseManager.get_file_type ("b.txt") :=
  ⟨C5_classifier_total.2.2.1 ("noext") (by decide),
   C5_classifier_total.2.2.2 ("A.TXT") ("b.txt") (by decide)⟩

theorem on_modified_db (fs : FileSystem) (m : MonitorState) (path : String)
    (t : Nat)
    (hk : (⟨"modified", path, none, t⟩ : EventKey) ∉ m.processed_events) :
    (FileMonitor.on_modified fs m path t).db
      = DatabaseManager.update_file fs m.db path := by
  simp only [FileMonitor.on_modified, if_neg hk]
  split
  · rfl
  · rfl

theorem on_modified_processed (fs : FileSystem) (m : MonitorState)
    (path : String) (t : Nat)
    (hk : (⟨"modified", path, none, t⟩ : EventKey) ∉ m.processed_events) :
    (FileMonitor.on_modified fs m path t).processed_events = []
    ∨ (FileMonitor.on_modified fs m path t).processed_events
      = ⟨"modified", path, none, t⟩ :: m.processed_events := by
  simp only [FileMonitor.on_modified, if_neg hk]
  split
  · exact Or.inl rfl
  · exact Or.inr rfl

/-- C1 counterexample: moving `/w/a` to `/w/b` through the watch pipeline
is executed as two separately committed store transactions with a sleep
between them; the committed state after the first transaction (`midC1`) is
a reachable intermediate state in which `/w/a` has already been removed
and `/w/b` has not yet been inserted — a reader observes
neither-old-nor-new, refuting atomicity. -/
theorem C1_counterexample :
    hasRecord stC1 "/w/a" = true ∧
    (FileMonitor.on_moved fsC1 ⟨[], stC1⟩ "/w/a" "/w/b" 7).db
      = DatabaseManager.add_file fsC1 midC1 "/w/b" ∧
    hasRecord midC1 "/w/a" = false ∧
    hasRecord midC1 "/w/b" = false ∧
    hasRecord (FileMonitor.on_moved fsC1 ⟨[], stC1⟩ "/w/a" "/w/b" 7).db "/w/b"
      = true := by decide

/-- C1 (amended): `on_moved` processes a move as `remove_file(from)` then
`add_file(to)`, two sequential store transactions: the final state equals
the composition of the two steps (so the state with the source removed and
the destination not yet inserted is reachable between them, and indeed
holds no record for the source), and after both steps exactly the
destination is present and the source is absent. -/
theorem C1_move_two_step (fs : FileSystem) (m : MonitorState)
    (src_path dest_path : String) (t : Nat)
    (hk : (⟨"moved", src_path, some dest_path, t⟩ : EventKey)
      ∉ m.processed_events)
    (hne : src_path ≠ dest_path)
    (hex : fs.pathExists dest_path = true) (hf : fs.isFile dest_path = true)
    (huniq : (m.db.files.filter (fun f => f.file_path == src_path)).length ≤ 1) :
    (FileMonitor.on_moved fs m src_path dest_path t).db
      = DatabaseManager.add_file fs
          (DatabaseManager.remove_file fs m.db src_path) dest_path ∧
    hasRecord (DatabaseManager.remove_file fs m.db src_path) src_path = false ∧
    hasRecord (FileMonitor.on_moved fs m src_path dest_path t).db dest_path
      = true ∧
    hasRecord (FileMonitor.on_moved fs m src_path dest_path t).db src_path
      = false := by
  have hdb : (FileMonitor.on_moved fs m src_path dest_path t).db
      = DatabaseManager.add_file fs
          (DatabaseManager.remove_file fs m.db src_path) dest_path := by
    simp only [FileMonitor.on_moved, if_neg hk]
    split
    · rfl
    · rfl
  have hmid : hasRecord (DatabaseManager.remove_file fs m.db src_path) src_path
      = false := remove_file_hasRecord_self fs m.db src_path huniq
  refine ⟨hdb, hmid, ?_, ?_⟩
  · rw [hdb]
    exact add_file_hasRecord_self fs _ dest_path hex hf
  · rw [hdb, add_file_hasRecord_other fs _ dest_path src_path hne]
    exact hmid

/-- C1 witness: `C1_move_two_step` on the concrete move of `/w/a` to
`/w/b`. -/
theorem C1_witness :
    (FileMonitor.on_moved fsC1 ⟨[], stC1⟩ "/w/a" "/w/b" 3).db
      = DatabaseManager.add_file fsC1
          (DatabaseManager.remove_file fsC1 stC1 "/w/a") "/w/b" ∧
    hasRecord (DatabaseManager.remove_file fsC1 stC1 "/w/a") "/w/a" = false ∧
    hasRecord (FileMonitor.on_moved fsC1 ⟨[], stC1⟩ "/w/a" "/w/b" 3).db "/w/b"
      = true ∧
    hasRecord (FileMonitor.on_moved fsC1 ⟨[], stC1⟩ "/w/a" "/w/b" 3).db "/w/a"
      = false :=
  C1_move_two_step fsC1 ⟨[], stC1⟩ "/w/a" "/w/b" 3 (by decide) (by decide)
    (by decide) (by decide) (by decide)

/-- C3 counterexample: two rapid Modified notifications for the tracked
path `/m/f.txt` (arrival stamps 0 and 1) both pass the dedup check —
every key embeds its own `time.time()` stamp — so two `"modified"` events
are logged and the index is updated twice, not once as the claim
requires. -/
theorem C3_counterexample :
    ((FileMonitor.on_modified fsC3 (FileMonitor.on_modified fsC3 mC3
        "/m/f.txt" 0) "/m/f.txt" 1).db.events).length = 2 ∧ (2 : Nat) ≠ 1 ∧
    (FileMonitor.on_modified fsC3 (FileMonitor.on_modified fsC3 mC3
        "/m/f.txt" 0) "/m/f.txt" 1).db.events
      = [⟨"/m/f.txt", "modified", 2⟩, ⟨"/m/f.txt", "modified", 2⟩] := by decide

/-- C3 (amended): the dedup key includes the arrival timestamp, so the
window never coalesces distinct notifications: for every N, a burst of N
Modified notifications for the same tracked, existing path carrying
pairwise-distinct (and previously unseen) timestamps is processed N
times, appending exactly N `"modified"` events to the log — one index
update and one logged event per notification, not one per burst. -/
theorem C3_no_coalescing (fs : FileSystem) (path : String) :
    ∀ (ts : List Nat) (m : MonitorState) (r : FileRecord),
      ts.Nodup →
      (∀ t ∈ ts, (⟨"modified", path, none, t⟩ : EventKey)
        ∉ m.processed_events) →
      fs.pathExists path = true →
      DatabaseManager.find_record m.db path = some r →
      (processModified fs m path ts).db.events
        = m.db.events
          ++ List.replicate ts.length ⟨path, "modified", fs.now⟩ := by
  intro ts
  induction ts with
  | nil =>
    intro m r _ _ _ _
    simp [processModified]
  | cons t rest ih =>
    intro m r hnodup hfresh hex hfind
    have h1 : (⟨"modified", path, none, t⟩ : EventKey) ∉ m.processed_events :=
      hfresh t (List.mem_cons_self t rest)
    obtain ⟨hev1, r', hfind2⟩ := update_file_tracked fs m.db path r hex hfind
    have hfresh2 : ∀ t' ∈ rest, (⟨"modified", path, none, t'⟩ : EventKey)
        ∉ (FileMonitor.on_modified fs m path t).processed_events := by
      intro t' ht'
      cases on_modified_processed fs m path t h1 with
      | inl h => rw [h]; exact List.not_mem_nil _
      | inr h =>
        rw [h]
        intro hmem
        cases List.mem_cons.mp hmem with
        | inl heq =>
          have ht : t' = t := congrArg EventKey.t heq
          rw [ht] at ht'
          exact (List.nodup_cons.mp hnodup).1 ht'
        | inr hmem2 =>
          exact hfresh t' (List.mem_cons_of_mem t ht') hmem2
    have hfind2' : DatabaseManager.find_record
        (FileMonitor.on_modified fs m path t).db path = some r' := by
      rw [on_modified_db fs m path t h1]
      exact hfind2
    have hstep : processModified fs m path (t :: rest)
        = processModified fs (FileMonitor.on_modified fs m path t) path rest :=
      rfl
    rw [hstep, ih (FileMonitor.on_modified fs m path t) r'
      (List.nodup_cons.mp hnodup).2 hfresh2 hex hfind2']
    rw [on_modified_db fs m path t h1, hev1, List.append_assoc]
    rfl

/-- C3 witness: `C3_no_coalescing` on a concrete burst of three
notifications (stamps 3, 4, 5) for the tracked path `/m/f.txt`: three
`"modified"` events are appended. -/
theorem C3_witness :
    (processModified fsC3 mC3 "/m/f.txt" [3, 4, 5]).db.events
      = mC3.db.events
        ++ List.replicate 3 ⟨"/m/f.txt", "modified", fsC3.now⟩ :=
  C3_no_coalescing fsC3 "/m/f.txt" [3, 4, 5] mC3 recC3 (by decide) (by decide)
    (by decide) (by decide)
